import Mathlib

/-!
# Verification of the ncu2markdown core (`src/nsightful/core.py`)

Shallow embedding of the conversion of Nsight Compute CSV data to Markdown.
CSV line parsing (`csv.DictReader`) is an external collaborator; the embedding
starts from rows, each row being a finite association list from column name to
field text, and accessing an absent column is a `KeyError` (modelled as
`Except.error` naming the column).  Python `float` values are modelled as
exact rationals obtained by parsing Python float literals (finite
decimal/exponent forms with underscore grouping; `inf`/`nan` literals are out
of scope of the model).  Python string helpers (`str.strip`,
`str.replace(",", "")`, `"," in s`) are embedded as character-list functions.
-/

namespace Ncu2Markdown

/-- Python `str.strip()`: remove leading and trailing whitespace. -/
def pyStrip (s : String) : String :=
  String.mk (((s.toList.dropWhile Char.isWhitespace).reverse.dropWhile
    Char.isWhitespace).reverse)

/-- Python `value_str.replace(",", "")`: remove every comma. -/
def stripCommas (s : String) : String :=
  String.mk (s.toList.filter (fun c => !(c == ',')))

/-- Python `"," in value_str`. -/
def hasComma (s : String) : Bool :=
  s.toList.any (fun c => c == ',')

/-! ## Section canonicalization table (`SECTION_MAPPINGS`) -/

/-- The `SECTION_MAPPINGS` dict, as its ordered list of key/value pairs
(Python dicts preserve insertion order). -/
def SECTION_MAPPINGS : List (String × String) :=
  [("GPU Speed Of Light Throughput", "Speed Of Light"),
   ("SpeedOfLight", "Speed Of Light"),
   ("SpeedOfLight_RooflineChart", "Speed Of Light"),
   ("Memory Workload Analysis", "Memory Workload"),
   ("MemoryWorkloadAnalysis", "Memory Workload"),
   ("MemoryWorkloadAnalysis_Chart", "Memory Workload"),
   ("MemoryWorkloadAnalysis_Tables", "Memory Workload"),
   ("Compute Workload Analysis", "Compute Workload"),
   ("ComputeWorkloadAnalysis", "Compute Workload"),
   ("GPU and Memory Workload Distribution", "Compute & Memory Distribution"),
   ("Scheduler Statistics", "Scheduler"),
   ("SchedulerStats", "Scheduler"),
   ("Warp State Statistics", "Warp State"),
   ("WarpStateStats", "Warp State"),
   ("Instruction Statistics", "Instruction"),
   ("Launch Statistics", "Launch"),
   ("PM Sampling", "PM Sampling"),
   ("Occupancy", "Occupancy"),
   ("Source Counters", "Branching"),
   ("SourceCounters", "Branching")]

/-- Python `SECTION_MAPPINGS.get(raw, raw)`. -/
def sectionCanon (raw : String) : String :=
  (SECTION_MAPPINGS.lookup raw).getD raw

/-- Python `list(dict.fromkeys(xs))`: stable de-duplication, keeping the first
occurrence of each element. -/
def dedupFirst (l : List String) : List String :=
  l.foldl (fun acc v => if acc.contains v then acc else acc ++ [v]) []

/-- `section_order` as computed in `get_sorted_sections`:
`list(dict.fromkeys(SECTION_MAPPINGS.values()))`. -/
def section_order : List String :=
  dedupFirst (SECTION_MAPPINGS.map Prod.snd)

/-- The loop of `get_sorted_sections`: walk the canonical order, moving each
present section from `remaining` (a copy of the input dict) to `sorted`;
afterwards append whatever is left of `remaining` in its insertion order. -/
def gssGo {α : Type} : List String → List (String × α) → List (String × α) →
    List (String × α)
  | [], sorted, remaining => sorted ++ remaining
  | o :: os, sorted, remaining =>
    match remaining.lookup o with
    | some d => gssGo os (sorted ++ [(o, d)]) (remaining.eraseP (fun p => p.1 == o))
    | none => gssGo os sorted remaining

/-- `get_sorted_sections`: known sections first in `section_order`, then the
remaining sections in insertion order. -/
def get_sorted_sections {α : Type} (sections : List (String × α)) :
    List (String × α) :=
  gssGo section_order [] sections

/-! ## `extract_kernel_name` -/

/-- The characters at which `re.match(r"^([^[\(]+)", ...)` stops. -/
def kernelNameStop (c : Char) : Bool := c == '[' || c == '('

/-- `extract_kernel_name`: the regex matches a maximal nonempty prefix of
characters other than `[` and `(`; on a match return it stripped, otherwise
(empty prefix: empty input or input starting with `[` or `(`) return the full
name unchanged. -/
def extract_kernel_name (full_kernel_name : String) : String :=
  let pre := full_kernel_name.toList.takeWhile (fun c => !(kernelNameStop c))
  if pre.isEmpty then full_kernel_name
  else pyStrip (String.mk pre)

/-! ## Python float literals as exact rationals -/

/-- Numeric value of a digit character. -/
def digitVal (c : Char) : Nat := c.toNat - 48

/-- Tail of Python's `digitpart ::= digit (["_"] digit)*` after its first
digit: consume `(digit | "_" digit)*`, returning the digits consumed and the
unconsumed rest (an underscore not followed by a digit is left unconsumed). -/
def digitTail : List Char → List Nat × List Char
  | [] => ([], [])
  | c :: cs =>
    if c.isDigit then
      let r := digitTail cs
      (digitVal c :: r.1, r.2)
    else if c == '_' then
      match cs with
      | c2 :: cs2 =>
        if c2.isDigit then
          let r := digitTail cs2
          (digitVal c2 :: r.1, r.2)
        else ([], c :: cs)
      | [] => ([], [c])
    else ([], c :: cs)

/-- An optional `digitpart`: empty result when the input does not start with a
digit. -/
def digitsOpt : List Char → List Nat × List Char
  | [] => ([], [])
  | c :: cs =>
    if c.isDigit then
      let r := digitTail cs
      (digitVal c :: r.1, r.2)
    else ([], c :: cs)

/-- The natural number denoted by a digit list (most significant first). -/
def natOfDigits (ds : List Nat) : Nat := ds.foldl (fun a d => 10 * a + d) 0

/-- Optional leading sign; `true` means negative. -/
def parseSign : List Char → Bool × List Char
  | [] => (false, [])
  | c :: cs =>
    if c == '-' then (true, cs)
    else if c == '+' then (false, cs)
    else (false, c :: cs)

/-- Optional exponent `("e"|"E") [sign] digitpart`; fails when `e`/`E` is not
followed by a well-formed digit part. -/
def parseExp : List Char → Option (Int × List Char)
  | [] => some (0, [])
  | c :: cs =>
    if c == 'e' || c == 'E' then
      let sg := parseSign cs
      let d := digitsOpt sg.2
      if d.1.isEmpty then none
      else some ((if sg.1 then -(natOfDigits d.1 : Int) else (natOfDigits d.1 : Int)), d.2)
    else some (0, c :: cs)

/-- Python `float(s)` on finite literals, as an exact rational: surrounding
whitespace, optional sign, integer and/or fractional digit parts, optional
exponent; `none` models `ValueError`. -/
def pyFloat (s : String) : Option ℚ :=
  let sg := parseSign (pyStrip s).toList
  let ip := digitsOpt sg.2
  let fp : List Nat × List Char :=
    match ip.2 with
    | '.' :: cs => digitsOpt cs
    | _ => ([], ip.2)
  if ip.1.isEmpty && fp.1.isEmpty then none
  else
    match parseExp fp.2 with
    | none => none
    | some (e, rest) =>
      if rest.isEmpty then
        let base : Int := (natOfDigits ip.1 * 10 ^ fp.1.length + natOfDigits fp.1 : Nat)
        let nmr : Int := if 0 ≤ e then base * 10 ^ e.toNat else base
        let dnm : Nat := if 0 ≤ e then 10 ^ fp.1.length else 10 ^ (fp.1.length + (-e).toNat)
        some (mkRat (if sg.1 then -nmr else nmr) dnm)
      else none

/-! ## Numeric formatting (`format_numeric_value`) -/

/-- Insert a comma after every group of three digits, working over the
reversed digit list; `n` counts digits emitted since the last comma. -/
def commaRev : List Char → Nat → List Char
  | [], _ => []
  | c :: cs, n =>
    if n = 3 then ',' :: c :: commaRev cs 1
    else c :: commaRev cs (n + 1)

/-- Thousands grouping of a natural number, as in Python `f"{n:,}"`. -/
def commaGroupNat (n : Nat) : String :=
  String.mk (commaRev (Nat.repr n).toList.reverse 0).reverse

/-- Python `f"{n:,}"` for an integer. -/
def commaGroupInt (n : Int) : String :=
  (if n < 0 then "-" else "") ++ commaGroupNat n.natAbs

/-- Round-half-even of a rational to an integer (the rounding used by Python
`format`): compare twice the fractional part's numerator against the
denominator. -/
def roundHalfEven (q : ℚ) : Int :=
  let f := Rat.floor q
  let r2 : Int := 2 * (q.num - f * (q.den : Int))
  if r2 < (q.den : Int) then f
  else if (q.den : Int) < r2 then f + 1
  else if f % 2 = 0 then f else f + 1

/-- `|q| * 100` computed on the numerator/denominator representation. -/
def absTimes100 (q : ℚ) : ℚ := mkRat (q.num.natAbs * 100) q.den

/-- Python `f"{x:,.2f}"`: thousands-grouped integer part, a point, exactly two
fractional digits, after round-half-even at two decimals. -/
def commaGroup2f (q : ℚ) : String :=
  let n := (roundHalfEven (absTimes100 q)).toNat
  let ds := n % 100
  (if q < 0 then "-" else "") ++ commaGroupNat (n / 100) ++ "." ++
    (if ds < 10 then "0" ++ Nat.repr ds else Nat.repr ds)

/-- Decidable form of Python `float.is_integer()` for the rational model. -/
def isIntegerRat (q : ℚ) : Bool := q.den == 1

/-- Decidable form of `abs(x) >= 1000` for the rational model: `|q| ≥ 1000`
iff `1000 * den ≤ |num|`. -/
def absGE1000 (q : ℚ) : Bool := 1000 * (q.den : Int) ≤ (q.num.natAbs : Int)

/-- `format_numeric_value`: reformat comma-bearing numeric text; anything else
passes through unchanged. -/
def format_numeric_value (value_str : String) : String :=
  if value_str = "" then ""
  else if hasComma value_str then
    let clean_value := stripCommas value_str
    match pyFloat clean_value with
    | none => value_str
    | some float_val =>
      if isIntegerRat float_val && absGE1000 float_val then
        commaGroupInt float_val.num
      else if absGE1000 float_val then commaGroup2f float_val
      else clean_value
  else value_str

/-! ## `format_rule_type` -/

/-- `format_rule_type`: emoji-styled label per rule kind, unknown kinds pass
through wrapped in bold markers. -/
def format_rule_type (rule_type : String) : String :=
  if rule_type = "OPT" then "🔧 **OPTIMIZATION**"
  else if rule_type = "WRN" then "⚠️ **WARNING**"
  else if rule_type = "INF" then "ℹ️ **INFO**"
  else "**" ++ rule_type ++ "**"

/-! ## Data model -/

/-- A metric dict `{"Name", "Unit", "Value"}`. -/
structure Metric where
  name : String
  unit : String
  value : String
deriving DecidableEq, Repr

/-- A rule dict `{"Name", "Type", "Description", "Speedup_type", "Speedup"}`. -/
structure Rule where
  name : String
  rule_type : String
  description : String
  speedup_type : String
  speedup : String
deriving DecidableEq, Repr

/-- One section's `{"Metrics": {...}, "Rules": [...]}` payload; the metric
dict is an insertion-ordered association list keyed by metric name. -/
structure SectionData where
  metrics : List (String × Metric)
  rules : List Rule
deriving DecidableEq, Repr

/-- The aggregated model: insertion-ordered kernel dict of insertion-ordered
section dicts. -/
abbrev Model := List (String × List (String × SectionData))

/-- Python dict update `l[k] = f(l.get(k, d))` on an insertion-ordered
association list: an existing key keeps its position and gets the new value,
a new key is appended at the end. -/
def updAssoc {α : Type} (l : List (String × α)) (k : String) (d : α)
    (f : α → α) : List (String × α) :=
  if l.any (fun p => p.1 == k) then
    l.map (fun p => if p.1 == k then (k, f p.2) else p)
  else l ++ [(k, f d)]

/-- The `defaultdict` default `{"Metrics": {}, "Rules": []}`. -/
def emptySection : SectionData := ⟨[], []⟩

/-- Auto-vivifying access `kernels[kernel_name][section_name]` followed by an
update of that section. -/
def modifySection (kernels : Model) (kn sn : String)
    (f : SectionData → SectionData) : Model :=
  updAssoc kernels kn [] (fun secs => updAssoc secs sn emptySection f)

/-- Python dict assignment `m[k] = v` on the metric dict. -/
def upsert (m : List (String × Metric)) (k : String) (v : Metric) :
    List (String × Metric) :=
  updAssoc m k v (fun _ => v)

/-- `kernels[kernel_name][section_name]["Metrics"][metric_name] = metric`. -/
def upsertMetric (kernels : Model) (kn sn : String) (m : Metric) : Model :=
  modifySection kernels kn sn (fun sd => ⟨upsert sd.metrics m.name m, sd.rules⟩)

/-- `kernels[kernel_name][section_name]["Rules"].append(rule)`. -/
def appendRule (kernels : Model) (kn sn : String) (r : Rule) : Model :=
  modifySection kernels kn sn (fun sd => ⟨sd.metrics, sd.rules ++ [r]⟩)

/-! ## Parser/aggregator (`parse_ncu_csv_data`) -/

/-- A `csv.DictReader` row: column name to field text.  The CSV reading
itself is an external collaborator; the core consumes rows. -/
abbrev Row := List (String × String)

/-- Python `row[k]`: the field's text, or a `KeyError` naming the absent
column. -/
def getField (r : Row) (k : String) : Except String String :=
  match r.lookup k with
  | some v => Except.ok v
  | none => Except.error k

/-- The metric block of the loop body: when the trimmed metric name is
nonempty, read unit and value (in the source's evaluation order) and upsert
the metric into the addressed cell. -/
def metricStep (kernels : Model) (row : Row) (kernel_name section_name : String) :
    Except String Model :=
  match getField row ("Metric Name") with
  | Except.error e => Except.error e
  | Except.ok mn =>
    if pyStrip mn = "" then Except.ok kernels
    else
      match getField row ("Metric Unit"), getField row ("Metric Value") with
      | Except.error e, _ => Except.error e
      | _, Except.error e => Except.error e
      | Except.ok u, Except.ok v =>
        Except.ok (upsertMetric kernels kernel_name section_name
          ⟨pyStrip mn, pyStrip u, format_numeric_value (pyStrip v)⟩)

/-- The rule block of the loop body: when the trimmed rule name is nonempty,
read the remaining rule fields (in the source's evaluation order) and append
the rule to the addressed cell. -/
def ruleStep (kernels : Model) (row : Row) (kernel_name section_name : String) :
    Except String Model :=
  match getField row ("Rule Name") with
  | Except.error e => Except.error e
  | Except.ok rn =>
    if pyStrip rn = "" then Except.ok kernels
    else
      match getField row ("Rule Type"), getField row ("Rule Description"),
          getField row ("Estimated Speedup Type"),
          getField row ("Estimated Speedup") with
      | Except.error e, _, _, _ => Except.error e
      | _, Except.error e, _, _ => Except.error e
      | _, _, Except.error e, _ => Except.error e
      | _, _, _, Except.error e => Except.error e
      | Except.ok t, Except.ok d, Except.ok st, Except.ok sp =>
        Except.ok (appendRule kernels kernel_name section_name
          ⟨pyStrip rn, pyStrip t, pyStrip d, pyStrip st, pyStrip sp⟩)

/-- The body of the `for row in reader` loop of `parse_ncu_csv_data`, with
fields read in the source's evaluation order: kernel name, section name, the
empty-section skip, then the metric block, then the rule block. -/
def processRow (kernels : Model) (row : Row) : Except String Model :=
  match getField row ("Kernel Name") with
  | Except.error e => Except.error e
  | Except.ok full_kernel_name =>
    match getField row ("Section Name") with
    | Except.error e => Except.error e
    | Except.ok raw =>
      let kernel_name := extract_kernel_name full_kernel_name
      let section_name := sectionCanon raw
      if section_name = "" then Except.ok kernels
      else
        match metricStep kernels row kernel_name section_name with
        | Except.error e => Except.error e
        | Except.ok k1 => ruleStep k1 row kernel_name section_name

/-- Fold of `processRow` over the row sequence, aborting at the first error. -/
def parseRows : Model → List Row → Except String Model
  | st, [] => Except.ok st
  | st, r :: rs =>
    match processRow st r with
    | Except.error e => Except.error e
    | Except.ok st2 => parseRows st2 rs

/-- `parse_ncu_csv_data`: aggregate all rows into the model, starting from the
empty `defaultdict`. -/
def parse_ncu_csv_data (rows : List Row) : Except String Model :=
  parseRows [] rows

/-! ## Renderer (`add_per_section_markdown`, `convert_ncu_csv_to_flat_markdown`) -/

/-- One metrics-table row `| name | unit | value |`. -/
def metricLine (m : Metric) : String :=
  let nm := m.name
  let u := if m.unit = "" then "" else m.unit
  let v := if m.value = "" then "" else m.value
  s!"| {nm} | {u} | {v} |"

/-- The lines a single rule contributes: styled type, colon, description;
the speedup line only when both speedup fields are nonempty; then a blank. -/
def ruleLines (r : Rule) : List String :=
  let pre := format_rule_type r.rule_type
  let desc := r.description
  if r.speedup ≠ "" ∧ r.speedup_type ≠ "" then
    let st := r.speedup_type
    let sv := r.speedup
    [s!"{pre}: {desc}", s!"*Estimated Speedup ({st}): {sv}%*", ""]
  else [s!"{pre}: {desc}", ""]

/-- The per-section Markdown string that `add_per_section_markdown` attaches
to a section: `##` heading, metrics table when metrics exist, then the rules. -/
def section_markdown (section_name : String) (data : SectionData) : String :=
  let header := s!"## {section_name}\n"
  let metricsPart : List String :=
    if data.metrics.isEmpty then []
    else
      ["| Metric Name | Metric Unit | Metric Value |",
       "|-------------|-------------|--------------|"] ++
        data.metrics.map (fun p => metricLine p.2) ++ [""]
  let rulesPart := (data.rules.map ruleLines).flatten
  String.intercalate "\n" ([header] ++ metricsPart ++ rulesPart)

/-- The horizontal-rule separator appended after a kernel's sections. -/
def sep_line : String := "---\n"

/-- One kernel's block of output lines without any separator: `#` heading
followed by each section's Markdown in `get_sorted_sections` order. -/
def kernel_block (kernel_name : String)
    (sections : List (String × SectionData)) : List String :=
  s!"# {kernel_name}\n" ::
    (get_sorted_sections sections).map (fun p => section_markdown p.1 p.2)

/-- The line list built by `convert_ncu_csv_to_flat_markdown` from the model:
per kernel a heading, then either the no-sections placeholder (and no
separator, mirroring `continue`) or the sorted section Markdown blocks
followed by the separator. -/
def convert_lines (kernels : Model) : List String :=
  kernels.flatMap (fun kv =>
    let kn := kv.1
    s!"# {kn}\n" ::
      (if kv.2.isEmpty then [s!"No sections found for kernel: {kn}"]
       else (get_sorted_sections kv.2).map (fun p => section_markdown p.1 p.2) ++
         [sep_line]))

/-- `convert_ncu_csv_to_flat_markdown`: parse, render each kernel, join with
newlines; a parse error aborts the whole conversion. -/
def convert_ncu_csv_to_flat_markdown (rows : List Row) : Except String String :=
  (parse_ncu_csv_data rows).map (fun m => String.intercalate "\n" (convert_lines m))

/-! ## Specification-side definitions

Functions written from the specification's words, to be compared against the
source embedding above. -/

/-- The part of a character list strictly before the first `[` or `(`;
`none` when no such character occurs. -/
def splitAtStop : List Char → Option (List Char)
  | [] => none
  | c :: cs =>
    if kernelNameStop c then some []
    else (splitAtStop cs).map (fun l => c :: l)

/-- The claim's description of base-name extraction: for inputs containing a
`[` or `(`, the substring strictly before the first such character, trimmed;
otherwise the input unchanged. -/
def extract_kernel_name_spec (s : String) : String :=
  match splitAtStop s.toList with
  | some pre => pyStrip (String.mk pre)
  | none => s

/-- The amended description of base-name extraction, matching the regex: when
the maximal prefix before the first `[`/`(` is nonempty, that prefix trimmed;
when the input starts with `[` or `(` it is returned unchanged; an input
without `[`/`(` is returned trimmed (unchanged when empty). -/
def extract_kernel_name_amended (s : String) : String :=
  match splitAtStop s.toList with
  | some [] => s
  | some pre => pyStrip (String.mk pre)
  | none => if s = "" then s else pyStrip s

/-- The `(kernel, section)` cell of the aggregated model, when present. -/
def cellOf (m : Model) (kn sn : String) : Option SectionData :=
  (m.lookup kn).bind (fun secs => secs.lookup sn)

/-- The metric dict of a `(kernel, section)` cell (empty when the cell is
absent). -/
def cellMetrics (m : Model) (kn sn : String) : List (String × Metric) :=
  ((cellOf m kn sn).map SectionData.metrics).getD []

/-- The rule list of a `(kernel, section)` cell (empty when the cell is
absent). -/
def cellRules (m : Model) (kn sn : String) : List Rule :=
  ((cellOf m kn sn).map SectionData.rules).getD []

/-- The base kernel name a row addresses (over total field access; under a
successful parse each consulted field is present). -/
def rowKernel (r : Row) : String :=
  extract_kernel_name ((r.lookup ("Kernel Name")).getD "")

/-- The canonical section name a row addresses. -/
def rowSection (r : Row) : String :=
  sectionCanon ((r.lookup ("Section Name")).getD "")

/-- The metric a row contributes to the `(kn, sn)` cell, if any: the row must
address that cell with a nonempty canonical section and carry a nonempty
trimmed metric name. -/
def rowMetricFor (r : Row) (kn sn : String) : Option Metric :=
  if rowSection r ≠ "" ∧ rowKernel r = kn ∧ rowSection r = sn ∧
      pyStrip ((r.lookup ("Metric Name")).getD "") ≠ "" then
    some ⟨pyStrip ((r.lookup ("Metric Name")).getD ""),
      pyStrip ((r.lookup ("Metric Unit")).getD ""),
      format_numeric_value (pyStrip ((r.lookup ("Metric Value")).getD ""))⟩
  else none

/-- The rule a row contributes to the `(kn, sn)` cell, if any. -/
def rowRuleFor (r : Row) (kn sn : String) : Option Rule :=
  if rowSection r ≠ "" ∧ rowKernel r = kn ∧ rowSection r = sn ∧
      pyStrip ((r.lookup ("Rule Name")).getD "") ≠ "" then
    some ⟨pyStrip ((r.lookup ("Rule Name")).getD ""),
      pyStrip ((r.lookup ("Rule Type")).getD ""),
      pyStrip ((r.lookup ("Rule Description")).getD ""),
      pyStrip ((r.lookup ("Estimated Speedup Type")).getD ""),
      pyStrip ((r.lookup ("Estimated Speedup")).getD "")⟩
  else none

/-- All metrics the row sequence contributes to the `(kn, sn)` cell, in input
order. -/
def metricContribs (rows : List Row) (kn sn : String) : List Metric :=
  rows.filterMap (fun r => rowMetricFor r kn sn)

/-- All rules the row sequence contributes to the `(kn, sn)` cell, in input
order. -/
def ruleContribs (rows : List Row) (kn sn : String) : List Rule :=
  rows.filterMap (fun r => rowRuleFor r kn sn)

/-- Fold a metric contribution list into an insertion-ordered dict by
upserting under the metric name, starting from `init`. -/
def buildDictFrom (init : List (String × Metric)) (l : List Metric) :
    List (String × Metric) :=
  l.foldl (fun acc mt => upsert acc mt.name mt) init

/-- The metric dict determined by a contribution list: first-seen key order,
last contribution wins. -/
def buildDict (l : List Metric) : List (String × Metric) :=
  buildDictFrom [] l

/-- The last contribution carrying a given metric name, if any. -/
def lastWithName (l : List Metric) (n : String) : Option Metric :=
  (l.filter (fun mt => mt.name == n)).getLast?

/-- The model invariant of claim C10: every kernel entry owns at least one
section and every section entry owns at least one metric or rule. -/
def goodModel (m : Model) : Prop :=
  (∀ p ∈ m, p.2 ≠ []) ∧ ∀ p ∈ m, ∀ q ∈ p.2, q.2.metrics ≠ [] ∨ q.2.rules ≠ []

/-! ## Concrete inputs used by witnesses and counterexamples -/

/-- A fully populated CSV row. -/
def mkRow (kn sn mn mu mv rn rt rd st sp : String) : Row :=
  [("Kernel Name", kn), ("Section Name", sn), ("Metric Name", mn),
   ("Metric Unit", mu), ("Metric Value", mv), ("Rule Name", rn),
   ("Rule Type", rt), ("Rule Description", rd),
   ("Estimated Speedup Type", st), ("Estimated Speedup", sp)]

/-- Two kernels `A` then `B`, one metric row each. -/
def rowsAB : List Row :=
  [mkRow ("A(int)") ("Occupancy") ("m") ("u") ("1") ("") ("") ("") ("") (""),
   mkRow ("B(int)") ("Occupancy") ("m") ("u") ("1") ("") ("") ("") ("") ("")]

/-- The model `rowsAB` aggregates to. -/
def modelAB : Model :=
  [("A", [("Occupancy", ⟨[("m", ⟨"m", "u", "1"⟩)], []⟩)]),
   ("B", [("Occupancy", ⟨[("m", ⟨"m", "u", "1"⟩)], []⟩)])]

/-- A row whose raw section name is empty (hence dropped), and which lacks the
`Metric Name` column entirely. -/
def c5row : Row := [("Kernel Name", "A"), ("Section Name", "")]

/-- A row with a nonempty section and metric name but no `Metric Unit`
column. -/
def c5wrow : Row :=
  [("Kernel Name", "A"), ("Section Name", "Occupancy"), ("Metric Name", "m")]

/-- A row with an empty section name, used to witness the silent drop. -/
def c7row : Row := [("Kernel Name", "k"), ("Section Name", "")]

/-- Rows with a duplicated metric name `x` around another metric `y`, plus a
rule, all in one `(kernel, section)` cell. -/
def c6rows : List Row :=
  [mkRow ("K(int)") ("Occupancy") ("x") ("u") ("1") ("") ("") ("") ("") (""),
   mkRow ("K(int)") ("Occupancy") ("y") ("u") ("2") ("r1") ("OPT") ("d1") ("") (""),
   mkRow ("K(int)") ("Occupancy") ("x") ("w") ("3") ("r1") ("WRN") ("d2") ("") ("")]

/-- The model `c6rows` aggregates to: `x` keeps first position with the last
row's data; both rules kept in input order. -/
def c6model : Model :=
  [("K", [("Occupancy",
    ⟨[("x", ⟨"x", "w", "3"⟩), ("y", ⟨"y", "u", "2"⟩)],
     [⟨"r1", "OPT", "d1", "", ""⟩, ⟨"r1", "WRN", "d2", "", ""⟩]⟩)])]

/-- Two known sections listed against canonical order, used to witness the
two-tier ordering. -/
def c4sections : List (String × SectionData) :=
  [("Occupancy", ⟨[("m", ⟨"m", "u", "1"⟩)], []⟩),
   ("Speed Of Light", ⟨[], [⟨"r", "INF", "d", "", ""⟩]⟩)]

deriving instance DecidableEq for Except

/-! ## Helper lemmas -/

theorem string_mk_toList (s : String) : String.mk s.toList = s := by
  cases s
  rfl

theorem toList_eq_nil_iff (s : String) : s.toList = [] ↔ s = "" := by
  constructor
  · intro h
    rw [← string_mk_toList s, h]
  · intro h
    rw [h]
    rfl

theorem splitAtStop_none {l : List Char} (h : splitAtStop l = none) :
    l.takeWhile (fun c => !(kernelNameStop c)) = l := by
  induction l with
  | nil => rfl
  | cons c cs ih =>
    unfold splitAtStop at h
    cases hc : kernelNameStop c with
    | true =>
      rw [hc] at h
      simp at h
    | false =>
      rw [hc] at h
      simp at h
      simp only [List.takeWhile_cons, hc, Bool.not_false, if_true]
      rw [ih h]

theorem splitAtStop_some {l pre : List Char} (h : splitAtStop l = some pre) :
    l.takeWhile (fun c => !(kernelNameStop c)) = pre := by
  induction l generalizing pre with
  | nil => simp [splitAtStop] at h
  | cons c cs ih =>
    unfold splitAtStop at h
    cases hc : kernelNameStop c with
    | true =>
      rw [hc] at h
      simp at h
      simp [List.takeWhile_cons, hc, h]
    | false =>
      rw [hc] at h
      simp at h
      obtain ⟨pre2, hpre2, hEq⟩ := h
      simp only [List.takeWhile_cons, hc, Bool.not_false, if_true]
      rw [ih hpre2, hEq]

/-! ## Claim C2 -/

/-- C2, counterexample: the claim predicts the trimmed prefix before the
first `[`/`(` (here the empty string for an input starting with `[`), but the
code returns such inputs unchanged; and a bracket-free input with surrounding
whitespace is returned trimmed, not unchanged. -/
theorem claim_C2_counterexample :
    extract_kernel_name ("[foo") ≠ extract_kernel_name_spec ("[foo") ∧
    extract_kernel_name ("[foo") = "[foo" ∧
    extract_kernel_name_spec ("[foo") = "" ∧
    extract_kernel_name (" foo ") ≠ " foo " := by
  refine ⟨?_, ?_, ?_, ?_⟩ <;> decide

/-- C2, amended: when the maximal prefix before the first `[`/`(` is
nonempty, the result is that prefix trimmed; an input starting with `[` or
`(` is returned unchanged; an input containing neither character is returned
trimmed (hence unchanged only when empty). -/
theorem claim_C2_amended (s : String) :
    extract_kernel_name s = extract_kernel_name_amended s := by
  simp only [extract_kernel_name, extract_kernel_name_amended]
  cases h : splitAtStop s.toList with
  | none =>
    rw [splitAtStop_none h, string_mk_toList]
    by_cases hs : s = ""
    · subst hs
      simp
    · have hl : s.toList ≠ [] := fun e => hs ((toList_eq_nil_iff s).mp e)
      simp [hs, List.isEmpty_iff, hl]
      intro e
      exact absurd e hl
  | some pre =>
    rw [splitAtStop_some h]
    cases pre with
    | nil => simp
    | cons c pre2 => simp

/-- C2's amended claim holds at a concrete input. -/
theorem claim_C2_witness :
    extract_kernel_name ("a[b") = extract_kernel_name_amended ("a[b") :=
  claim_C2_amended ("a[b")

/-! ## Claim C8 -/

/-- C8: the numeric formatter is idempotent on its own grouped large-integer
output, comma presence is the sole reformatting trigger. -/
theorem claim_C8 :
    format_numeric_value (format_numeric_value ("12,345")) =
      format_numeric_value ("12,345") ∧
    format_numeric_value ("12,345") = "12,345" ∧
    format_numeric_value ("1234567") = "1234567" ∧
    format_numeric_value ("1,234,567") = "1,234,567" := by
  refine ⟨?_, ?_, ?_, ?_⟩ <;> decide

/-! ## Claim C9 -/

/-- C9: the numeric formatter is total — every input yields one of the
described output shapes — and the guarded parse-failure branch returns the
original input. -/
theorem claim_C9 (s : String) :
    (hasComma s = false → format_numeric_value s = s) ∧
    (hasComma s = true → pyFloat (stripCommas s) = none →
      format_numeric_value s = s) ∧
    (format_numeric_value s = s ∨ format_numeric_value s = stripCommas s ∨
      ∃ q, pyFloat (stripCommas s) = some q ∧
        (format_numeric_value s = commaGroupInt q.num ∨
         format_numeric_value s = commaGroup2f q)) := by
  by_cases hs : s = ""
  · subst hs
    exact ⟨fun _ => rfl, fun h _ => by simp [hasComma] at h, Or.inl rfl⟩
  · cases hc : hasComma s with
    | false =>
      have hf : format_numeric_value s = s := by
        simp [format_numeric_value, hs, hc]
      exact ⟨fun _ => hf, fun h _ => by simp [hc] at h, Or.inl hf⟩
    | true =>
      cases hp : pyFloat (stripCommas s) with
      | none =>
        have hf : format_numeric_value s = s := by
          simp [format_numeric_value, hs, hc, hp]
        exact ⟨fun h => by simp [hc] at h, fun _ _ => hf, Or.inl hf⟩
      | some q =>
        have hf : format_numeric_value s =
            (if isIntegerRat q && absGE1000 q then commaGroupInt q.num
             else if absGE1000 q then commaGroup2f q else stripCommas s) := by
          simp [format_numeric_value, hs, hc, hp]
        refine ⟨fun h => by simp [hc] at h, fun _ hN => by simp at hN, ?_⟩
        cases hI : isIntegerRat q with
        | true =>
          cases hA : absGE1000 q with
          | true => exact Or.inr (Or.inr ⟨q, rfl, Or.inl (by rw [hf]; simp [hI, hA])⟩)
          | false => exact Or.inr (Or.inl (by rw [hf]; simp [hI, hA]))
        | false =>
          cases hA : absGE1000 q with
          | true => exact Or.inr (Or.inr ⟨q, rfl, Or.inr (by rw [hf]; simp [hI, hA])⟩)
          | false => exact Or.inr (Or.inl (by rw [hf]; simp [hI, hA]))

/-- C9 at a concrete unparsable comma-bearing input. -/
theorem claim_C9_witness :
    format_numeric_value ("not,a number") = "not,a number" :=
  (claim_C9 ("not,a number")).2.1 (by decide) (by decide)

/-! ## Claim C3 -/

theorem thousand_le_iff (r : ℚ) :
    (1000 : ℚ) ≤ r ↔ 1000 * (r.den : ℤ) ≤ r.num := by
  rw [Rat.le_def]
  simp

theorem absGE1000_iff (q : ℚ) : absGE1000 q = true ↔ (1000 : ℚ) ≤ |q| := by
  unfold absGE1000
  simp only [decide_eq_true_eq]
  rw [le_abs]
  constructor
  · intro h
    rcases le_or_lt 0 q.num with hn | hn
    · left
      rw [thousand_le_iff]
      omega
    · right
      rw [thousand_le_iff, Rat.num_neg_eq_neg_num, Rat.den_neg_eq_den]
      omega
  · intro h
    rcases h with h | h
    · rw [thousand_le_iff] at h
      omega
    · rw [thousand_le_iff, Rat.num_neg_eq_neg_num, Rat.den_neg_eq_den] at h
      omega

/-- C3: branch behavior of the numeric formatter on comma-bearing input —
integral values of magnitude at least 1000 are regrouped as integers,
non-integral ones get two decimals, small values pass through comma-stripped,
parse failures return the original, and empty input gives empty output. -/
theorem claim_C3 (s : String) (h : hasComma s = true) :
    format_numeric_value ("") = "" ∧
    (pyFloat (stripCommas s) = none → format_numeric_value s = s) ∧
    ∀ q, pyFloat (stripCommas s) = some q →
      (q.den = 1 → (1000 : ℚ) ≤ |q| →
        format_numeric_value s = commaGroupInt q.num) ∧
      (q.den ≠ 1 → (1000 : ℚ) ≤ |q| →
        format_numeric_value s = commaGroup2f q) ∧
      (|q| < 1000 → format_numeric_value s = stripCommas s) := by
  have hs : ¬(s = "") := by
    intro e
    subst e
    simp [hasComma] at h
  refine ⟨rfl, fun hn => by simp [format_numeric_value, hs, h, hn],
    fun q hq => ?_⟩
  have hf : format_numeric_value s =
      (if isIntegerRat q && absGE1000 q then commaGroupInt q.num
       else if absGE1000 q then commaGroup2f q else stripCommas s) := by
    simp [format_numeric_value, hs, h, hq]
  refine ⟨fun hden habs => ?_, fun hden habs => ?_, fun hlt => ?_⟩
  · have h1 : isIntegerRat q = true := by simp [isIntegerRat, hden]
    have h2 : absGE1000 q = true := (absGE1000_iff q).mpr habs
    rw [hf]
    simp [h1, h2]
  · have h1 : isIntegerRat q = false := by simp [isIntegerRat, hden]
    have h2 : absGE1000 q = true := (absGE1000_iff q).mpr habs
    rw [hf]
    simp [h1, h2]
  · have h2 : absGE1000 q = false := by
      cases habs : absGE1000 q with
      | false => rfl
      | true => exact absurd ((absGE1000_iff q).mp habs) (not_le.mpr hlt)
    rw [hf]
    simp [h2]

/-! ## Parser machinery lemmas -/

theorem getField_ok {r : Row} {k v : String} (h : getField r k = Except.ok v) :
    r.lookup k = some v := by
  unfold getField at h
  cases hl : r.lookup k with
  | none => simp only [hl] at h; cases h
  | some w => simp only [hl] at h; injection h with h; rw [h]

theorem getField_error {r : Row} {k e : String}
    (h : getField r k = Except.error e) : e = k ∧ r.lookup k = none := by
  unfold getField at h
  cases hl : r.lookup k with
  | none => simp only [hl] at h; injection h with h; exact ⟨h.symm, rfl⟩
  | some w => simp only [hl] at h; cases h

theorem metricStep_ok {st : Model} {row : Row} {kn sn : String} {st2 : Model}
    (h : metricStep st row kn sn = Except.ok st2) :
    (∃ mn, getField row ("Metric Name") = Except.ok mn ∧ pyStrip mn = "" ∧
      st2 = st) ∨
    (∃ mn u v, getField row ("Metric Name") = Except.ok mn ∧
      getField row ("Metric Unit") = Except.ok u ∧
      getField row ("Metric Value") = Except.ok v ∧ pyStrip mn ≠ "" ∧
      st2 = upsertMetric st kn sn
        ⟨pyStrip mn, pyStrip u, format_numeric_value (pyStrip v)⟩) := by
  unfold metricStep at h
  cases hmn : getField row ("Metric Name") with
  | error e => simp only [hmn] at h; cases h
  | ok mn =>
    simp only [hmn] at h
    by_cases hstrip : pyStrip mn = ""
    · rw [if_pos hstrip] at h
      injection h with h
      exact Or.inl ⟨mn, rfl, hstrip, h.symm⟩
    · rw [if_neg hstrip] at h
      cases hu : getField row ("Metric Unit") with
      | error e =>
        cases hv : getField row ("Metric Value") with
        | error e2 => simp only [hu, hv] at h; cases h
        | ok v => simp only [hu, hv] at h; cases h
      | ok u =>
        cases hv : getField row ("Metric Value") with
        | error e2 => simp only [hu, hv] at h; cases h
        | ok v =>
          simp only [hu, hv] at h
          injection h with h
          exact Or.inr ⟨mn, u, v, rfl, rfl, rfl, hstrip, h.symm⟩

theorem metricStep_error {st : Model} {row : Row} {kn sn e : String}
    (h : metricStep st row kn sn = Except.error e) : row.lookup e = none := by
  unfold metricStep at h
  cases hmn : getField row ("Metric Name") with
  | error e2 =>
    simp only [hmn] at h
    injection h with h
    obtain ⟨he, hn⟩ := getField_error hmn
    rw [← h, he]
    exact hn
  | ok mn =>
    simp only [hmn] at h
    by_cases hstrip : pyStrip mn = ""
    · rw [if_pos hstrip] at h; cases h
    · rw [if_neg hstrip] at h
      cases hu : getField row ("Metric Unit") with
      | error e2 =>
        cases hv : getField row ("Metric Value") with
        | error e3 =>
          simp only [hu, hv] at h
          injection h with h
          obtain ⟨he, hn⟩ := getField_error hu
          rw [← h, he]
          exact hn
        | ok v =>
          simp only [hu, hv] at h
          injection h with h
          obtain ⟨he, hn⟩ := getField_error hu
          rw [← h, he]
          exact hn
      | ok u =>
        cases hv : getField row ("Metric Value") with
        | error e2 =>
          simp only [hu, hv] at h
          injection h with h
          obtain ⟨he, hn⟩ := getField_error hv
          rw [← h, he]
          exact hn
        | ok v => simp only [hu, hv] at h; cases h

theorem ruleStep_ok {st : Model} {row : Row} {kn sn : String} {st2 : Model}
    (h : ruleStep st row kn sn = Except.ok st2) :
    (∃ rn, getField row ("Rule Name") = Except.ok rn ∧ pyStrip rn = "" ∧
      st2 = st) ∨
    (∃ rn t d sty sp, getField row ("Rule Name") = Except.ok rn ∧
      getField row ("Rule Type") = Except.ok t ∧
      getField row ("Rule Description") = Except.ok d ∧
      getField row ("Estimated Speedup Type") = Except.ok sty ∧
      getField row ("Estimated Speedup") = Except.ok sp ∧ pyStrip rn ≠ "" ∧
      st2 = appendRule st kn sn
        ⟨pyStrip rn, pyStrip t, pyStrip d, pyStrip sty, pyStrip sp⟩) := by
  unfold ruleStep at h
  cases hrn : getField row ("Rule Name") with
  | error e => simp only [hrn] at h; cases h
  | ok rn =>
    simp only [hrn] at h
    by_cases hstrip : pyStrip rn = ""
    · rw [if_pos hstrip] at h
      injection h with h
      exact Or.inl ⟨rn, rfl, hstrip, h.symm⟩
    · rw [if_neg hstrip] at h
      cases ht : getField row ("Rule Type") with
      | error e => simp only [ht] at h; cases h
      | ok t =>
        cases hd : getField row ("Rule Description") with
        | error e => simp only [ht, hd] at h; cases h
        | ok d =>
          cases hst : getField row ("Estimated Speedup Type") with
          | error e => simp only [ht, hd, hst] at h; cases h
          | ok sty =>
            cases hsp : getField row ("Estimated Speedup") with
            | error e => simp only [ht, hd, hst, hsp] at h; cases h
            | ok sp =>
              simp only [ht, hd, hst, hsp] at h
              injection h with h
              exact Or.inr ⟨rn, t, d, sty, sp, rfl, rfl, rfl, rfl, rfl,
                hstrip, h.symm⟩

theorem ruleStep_error {st : Model} {row : Row} {kn sn e : String}
    (h : ruleStep st row kn sn = Except.error e) : row.lookup e = none := by
  unfold ruleStep at h
  cases hrn : getField row ("Rule Name") with
  | error e2 =>
    simp only [hrn] at h
    injection h with h
    obtain ⟨he, hn⟩ := getField_error hrn
    rw [← h, he]
    exact hn
  | ok rn =>
    simp only [hrn] at h
    by_cases hstrip : pyStrip rn = ""
    · rw [if_pos hstrip] at h; cases h
    · rw [if_neg hstrip] at h
      cases ht : getField row ("Rule Type") with
      | error e2 =>
        simp only [ht] at h
        injection h with h
        obtain ⟨he, hn⟩ := getField_error ht
        rw [← h, he]
        exact hn
      | ok t =>
        cases hd : getField row ("Rule Description") with
        | error e2 =>
          simp only [ht, hd] at h
          injection h with h
          obtain ⟨he, hn⟩ := getField_error hd
          rw [← h, he]
          exact hn
        | ok d =>
          cases hst : getField row ("Estimated Speedup Type") with
          | error e2 =>
            simp only [ht, hd, hst] at h
            injection h with h
            obtain ⟨he, hn⟩ := getField_error hst
            rw [← h, he]
            exact hn
          | ok sty =>
            cases hsp : getField row ("Estimated Speedup") with
            | error e2 =>
              simp only [ht, hd, hst, hsp] at h
              injection h with h
              obtain ⟨he, hn⟩ := getField_error hsp
              rw [← h, he]
              exact hn
            | ok sp => simp only [ht, hd, hst, hsp] at h; cases h

theorem processRow_ok_cases {st : Model} {r : Row} {st2 : Model}
    (h : processRow st r = Except.ok st2) :
    ∃ fkn raw, getField r ("Kernel Name") = Except.ok fkn ∧
      getField r ("Section Name") = Except.ok raw ∧
      ((sectionCanon raw = "" ∧ st2 = st) ∨
       (sectionCanon raw ≠ "" ∧
        ∃ k1, metricStep st r (extract_kernel_name fkn) (sectionCanon raw) =
            Except.ok k1 ∧
          ruleStep k1 r (extract_kernel_name fkn) (sectionCanon raw) =
            Except.ok st2)) := by
  unfold processRow at h
  cases hK : getField r ("Kernel Name") with
  | error e => simp only [hK] at h; cases h
  | ok fkn =>
    simp only [hK] at h
    cases hS : getField r ("Section Name") with
    | error e => simp only [hS] at h; cases h
    | ok raw =>
      simp only [hS] at h
      by_cases hsec : sectionCanon raw = ""
      · rw [if_pos hsec] at h
        injection h with h
        exact ⟨fkn, raw, rfl, rfl, Or.inl ⟨hsec, h.symm⟩⟩
      · rw [if_neg hsec] at h
        cases hm : metricStep st r (extract_kernel_name fkn) (sectionCanon raw) with
        | error e => simp only [hm] at h; cases h
        | ok k1 =>
          simp only [hm] at h
          exact ⟨fkn, raw, rfl, rfl, Or.inr ⟨hsec, k1, hm, h⟩⟩

theorem processRow_error_lookup {st : Model} {r : Row} {f : String}
    (h : processRow st r = Except.error f) : r.lookup f = none := by
  unfold processRow at h
  cases hK : getField r ("Kernel Name") with
  | error e =>
    simp only [hK] at h
    injection h with h
    obtain ⟨he, hn⟩ := getField_error hK
    rw [← h, he]
    exact hn
  | ok fkn =>
    simp only [hK] at h
    cases hS : getField r ("Section Name") with
    | error e =>
      simp only [hS] at h
      injection h with h
      obtain ⟨he, hn⟩ := getField_error hS
      rw [← h, he]
      exact hn
    | ok raw =>
      simp only [hS] at h
      by_cases hsec : sectionCanon raw = ""
      · rw [if_pos hsec] at h; cases h
      · rw [if_neg hsec] at h
        cases hm : metricStep st r (extract_kernel_name fkn) (sectionCanon raw) with
        | error e =>
          simp only [hm] at h
          injection h with h
          rw [← h]
          exact metricStep_error hm
        | ok k1 =>
          simp only [hm] at h
          exact ruleStep_error h

theorem parseRows_append (st : Model) (xs ys : List Row) :
    parseRows st (xs ++ ys) =
      match parseRows st xs with
      | Except.ok m => parseRows m ys
      | Except.error e => Except.error e := by
  induction xs generalizing st with
  | nil => simp [parseRows]
  | cons r rs ih =>
    simp only [List.cons_append, parseRows]
    cases h : processRow st r with
    | error e => simp
    | ok st2 => simp [ih st2]

/-! ## Model invariant machinery -/

theorem updAssoc_ne_nil {α : Type} (l : List (String × α)) (k : String) (d : α)
    (f : α → α) : updAssoc l k d f ≠ [] := by
  unfold updAssoc
  split
  · intro he
    rename_i hany
    rw [List.map_eq_nil_iff] at he
    subst he
    simp at hany
  · simp

theorem mem_updAssoc {α : Type} {l : List (String × α)} {k : String} {d : α}
    {f : α → α} {q : String × α} (hq : q ∈ updAssoc l k d f) :
    q ∈ l ∨ ∃ v, q = (k, f v) ∧ ((k, v) ∈ l ∨ v = d) := by
  unfold updAssoc at hq
  split at hq
  · obtain ⟨p, hp, hpe⟩ := List.mem_map.mp hq
    by_cases hc : p.1 = k
    · right
      refine ⟨p.2, ?_, Or.inl ?_⟩
      · rw [← hpe]
        simp [hc]
      · obtain ⟨p1, p2⟩ := p
        simp only at hc
        rw [hc] at hp
        exact hp
    · left
      have he : (if p.1 == k then (k, f p.2) else p) = p := by simp [hc]
      rw [he] at hpe
      rw [← hpe]
      exact hp
  · rcases List.mem_append.mp hq with h | h
    · exact Or.inl h
    · right
      simp only [List.mem_singleton] at h
      exact ⟨d, h, Or.inr rfl⟩

theorem goodModel_nil : goodModel [] := ⟨by simp, by simp⟩

theorem goodModel_upsertMetric {st : Model} (hg : goodModel st)
    (K S : String) (mt : Metric) : goodModel (upsertMetric st K S mt) := by
  obtain ⟨hg1, hg2⟩ := hg
  unfold upsertMetric modifySection
  constructor
  · intro p hp
    rcases mem_updAssoc hp with h | ⟨v, he, hv⟩
    · exact hg1 p h
    · rw [he]
      dsimp only
      exact updAssoc_ne_nil _ _ _ _
  · intro p hp q hq
    rcases mem_updAssoc hp with h | ⟨v, he, hv⟩
    · exact hg2 p h q hq
    · rw [he] at hq
      dsimp only at hq
      rcases mem_updAssoc hq with h2 | ⟨w, he2, hw⟩
      · rcases hv with hv | hv
        · exact hg2 (K, v) hv q h2
        · rw [hv] at h2
          cases h2
      · rw [he2]
        dsimp only
        left
        exact updAssoc_ne_nil _ _ _ _

theorem goodModel_appendRule {st : Model} (hg : goodModel st)
    (K S : String) (r : Rule) : goodModel (appendRule st K S r) := by
  obtain ⟨hg1, hg2⟩ := hg
  unfold appendRule modifySection
  constructor
  · intro p hp
    rcases mem_updAssoc hp with h | ⟨v, he, hv⟩
    · exact hg1 p h
    · rw [he]
      dsimp only
      exact updAssoc_ne_nil _ _ _ _
  · intro p hp q hq
    rcases mem_updAssoc hp with h | ⟨v, he, hv⟩
    · exact hg2 p h q hq
    · rw [he] at hq
      dsimp only at hq
      rcases mem_updAssoc hq with h2 | ⟨w, he2, hw⟩
      · rcases hv with hv | hv
        · exact hg2 (K, v) hv q h2
        · rw [hv] at h2
          cases h2
      · rw [he2]
        dsimp only
        right
        simp

theorem processRow_ok_good {st : Model} {r : Row} {st2 : Model}
    (hg : goodModel st) (h : processRow st r = Except.ok st2) :
    goodModel st2 := by
  obtain ⟨fkn, raw, hK, hS, hcase⟩ := processRow_ok_cases h
  rcases hcase with ⟨hsec, hst⟩ | ⟨hsec, k1, hm, hr⟩
  · rw [hst]
    exact hg
  · have hk1 : goodModel k1 := by
      rcases metricStep_ok hm with ⟨mn, _, _, hst⟩ | ⟨mn, u, v, _, _, _, _, hst⟩
      · rw [hst]
        exact hg
      · rw [hst]
        exact goodModel_upsertMetric hg _ _ _
    rcases ruleStep_ok hr with ⟨rn, _, _, hst⟩ |
      ⟨rn, t, d, sty, sp, _, _, _, _, _, _, hst⟩
    · rw [hst]
      exact hk1
    · rw [hst]
      exact goodModel_appendRule hk1 _ _ _

theorem parseRows_good {rows : List Row} : ∀ {st m : Model}, goodModel st →
    parseRows st rows = Except.ok m → goodModel m := by
  induction rows with
  | nil =>
    intro st m hg h
    injection h with h
    rw [← h]
    exact hg
  | cons r rs ih =>
    intro st m hg h
    unfold parseRows at h
    cases hp : processRow st r with
    | error e =>
      simp only [hp] at h
      cases h
    | ok st2 =>
      simp only [hp] at h
      exact ih (processRow_ok_good hg hp) h

theorem parse_model_good {rows : List Row} {m : Model}
    (h : parse_ncu_csv_data rows = Except.ok m) : goodModel m :=
  parseRows_good goodModel_nil h

theorem convert_lines_eq_flat {m : Model} (h : ∀ p ∈ m, p.2 ≠ []) :
    convert_lines m =
      m.flatMap (fun kv => kernel_block kv.1 kv.2 ++ [sep_line]) := by
  induction m with
  | nil => rfl
  | cons kv rest ih =>
    have h1 : kv.2 ≠ [] := h kv (List.mem_cons_self kv rest)
    have he : kv.2.isEmpty = false := by
      cases hv : kv.2 with
      | nil => exact absurd hv h1
      | cons a l => rfl
    simp only [convert_lines] at ih ⊢
    simp only [List.flatMap_cons]
    rw [ih (fun p hp => h p (List.mem_cons_of_mem _ hp))]
    congr 1
    simp [he, kernel_block]

/-! ## Claim C1 -/

/-- C1, counterexample: with two kernels rendered, the separator line follows
the final kernel's block as well — the output's final line is the separator,
contradicting "no separator line follows the final kernel's block". -/
theorem claim_C1_counterexample :
    (parse_ncu_csv_data rowsAB).map (fun m => m.length) = Except.ok 2 ∧
    (parse_ncu_csv_data rowsAB).map convert_lines = Except.ok
      ["# A\n",
       "## Occupancy\n\n| Metric Name | Metric Unit | Metric Value |\n|-------------|-------------|--------------|\n| m | u | 1 |\n",
       "---\n",
       "# B\n",
       "## Occupancy\n\n| Metric Name | Metric Unit | Metric Value |\n|-------------|-------------|--------------|\n| m | u | 1 |\n",
       "---\n"] := by
  refine ⟨?_, ?_⟩ <;> decide

/-- C1, amended: in the end-to-end conversion every rendered kernel's block —
including the final kernel's — is followed by exactly one horizontal-rule
separator line; in particular a separator appears between consecutive kernel
blocks and one trails the final block. -/
theorem claim_C1_amended (rows : List Row) (m : Model)
    (h : parse_ncu_csv_data rows = Except.ok m) :
    convert_lines m =
      m.flatMap (fun kv => kernel_block kv.1 kv.2 ++ [sep_line]) :=
  convert_lines_eq_flat (parse_model_good h).1

/-- C1's amended claim holds at the two-kernel input. -/
theorem claim_C1_witness :
    convert_lines modelAB =
      modelAB.flatMap (fun kv => kernel_block kv.1 kv.2 ++ [sep_line]) :=
  claim_C1_amended rowsAB modelAB (by decide)

/-! ## Claim C10 -/

/-- C10: in every parsed model each kernel entry owns at least one section and
each section entry owns at least one metric or rule, so the renderer's
no-sections placeholder branch is unreachable end-to-end — the output is
exactly the flat per-kernel blocks with separators. -/
theorem claim_C10 (rows : List Row) (m : Model)
    (p : String × List (String × SectionData)) (q : String × SectionData)
    (h : parse_ncu_csv_data rows = Except.ok m) (hp : p ∈ m) (hq : q ∈ p.2) :
    p.2 ≠ [] ∧ (q.2.metrics ≠ [] ∨ q.2.rules ≠ []) ∧
    convert_lines m =
      m.flatMap (fun kv => kernel_block kv.1 kv.2 ++ [sep_line]) := by
  have hg := parse_model_good h
  exact ⟨hg.1 p hp, hg.2 p hp q hq, convert_lines_eq_flat hg.1⟩

/-- The first kernel/section entry of `modelAB`. -/
def c10p : String × List (String × SectionData) :=
  ("A", [("Occupancy", ⟨[("m", ⟨"m", "u", "1"⟩)], []⟩)])

/-- The section entry of `c10p`. -/
def c10q : String × SectionData := ("Occupancy", ⟨[("m", ⟨"m", "u", "1"⟩)], []⟩)

/-- C10 at the concrete two-kernel input. -/
theorem claim_C10_witness :
    c10p.2 ≠ [] ∧ (c10q.2.metrics ≠ [] ∨ c10q.2.rules ≠ []) ∧
    convert_lines modelAB =
      modelAB.flatMap (fun kv => kernel_block kv.1 kv.2 ++ [sep_line]) :=
  claim_C10 rowsAB modelAB c10p c10q (by decide) (by decide) (by decide)

/-! ## Claim C7 -/

/-- C7: a row whose section name canonicalizes to the empty string is dropped
entirely — processing it returns the model unchanged with no error, and the
whole conversion of any row sequence containing it equals the conversion
without it. -/
theorem claim_C7 (st : Model) (pre post : List Row) (r : Row) (fk rs : String)
    (hk : r.lookup ("Kernel Name") = some fk)
    (hs : r.lookup ("Section Name") = some rs)
    (hempty : sectionCanon rs = "") :
    processRow st r = Except.ok st ∧
    parse_ncu_csv_data (pre ++ r :: post) = parse_ncu_csv_data (pre ++ post) := by
  have hstep : ∀ st0 : Model, processRow st0 r = Except.ok st0 := by
    intro st0
    unfold processRow
    simp [getField, hk, hs, hempty]
  refine ⟨hstep st, ?_⟩
  unfold parse_ncu_csv_data
  have h1 : pre ++ r :: post = pre ++ (r :: post) := rfl
  rw [h1, parseRows_append, parseRows_append]
  cases hpre : parseRows [] pre with
  | error e => rfl
  | ok m =>
    simp only [parseRows, hstep m]

/-- C7 at a concrete row with empty section name. -/
theorem claim_C7_witness :
    processRow [] c7row = Except.ok [] ∧
    parse_ncu_csv_data ([] ++ c7row :: []) = parse_ncu_csv_data ([] ++ []) :=
  claim_C7 [] [] [] c7row "k" "" rfl rfl rfl

/-! ## Claim C5 -/

/-- C5, counterexample: a row lacking the required `Metric Name` field (and
all other metric/rule fields) whose section name is empty is skipped before
those fields are read, so the conversion succeeds instead of failing. -/
theorem claim_C5_counterexample :
    c5row.lookup ("Metric Name") = none ∧
    convert_ncu_csv_to_flat_markdown [c5row] = Except.ok ("") := by
  refine ⟨rfl, ?_⟩
  decide

/-- C5, amended: whenever processing a row fails, the error names a field
genuinely absent from that row, and the whole conversion aborts with that
typed error — no partial document is produced (missing fields on paths the
row's processing never reaches, e.g. after the empty-section skip, cause no
failure). -/
theorem claim_C5_amended (pre post : List Row) (r : Row) (m : Model)
    (f : String) (hpre : parse_ncu_csv_data pre = Except.ok m)
    (hr : processRow m r = Except.error f) :
    r.lookup f = none ∧
    parse_ncu_csv_data (pre ++ r :: post) = Except.error f ∧
    convert_ncu_csv_to_flat_markdown (pre ++ r :: post) = Except.error f := by
  have h2 : parse_ncu_csv_data (pre ++ r :: post) = Except.error f := by
    unfold parse_ncu_csv_data at hpre ⊢
    have h1 : pre ++ r :: post = pre ++ (r :: post) := rfl
    rw [h1, parseRows_append, hpre]
    simp only [parseRows, hr]
  refine ⟨processRow_error_lookup hr, h2, ?_⟩
  unfold convert_ncu_csv_to_flat_markdown
  rw [h2]
  rfl

/-- C5's amended claim at a concrete row lacking `Metric Unit` on a row with
nonempty section and metric name. -/
theorem claim_C5_witness :
    c5wrow.lookup ("Metric Unit") = none ∧
    parse_ncu_csv_data ([] ++ c5wrow :: []) = Except.error ("Metric Unit") ∧
    convert_ncu_csv_to_flat_markdown ([] ++ c5wrow :: []) =
      Except.error ("Metric Unit") :=
  claim_C5_amended [] [] c5wrow [] ("Metric Unit") rfl (by decide)

/-! ## Section-ordering machinery (claim C4) -/

theorem lookup_cons_eq {α : Type} (p : String × α) (l : List (String × α))
    (a : String) :
    (p :: l).lookup a = if a == p.1 then some p.2 else l.lookup a := by
  obtain ⟨k, b⟩ := p
  simp only [List.lookup_cons]
  cases h : a == k
  · simp [h]
  · simp [h]

theorem lookup_none_iff {α : Type} (l : List (String × α)) (o : String) :
    l.lookup o = none ↔ ∀ p ∈ l, p.1 ≠ o := by
  induction l with
  | nil => simp
  | cons p rest ih =>
    rw [lookup_cons_eq]
    by_cases h : o = p.1
    · simp [h]
    · have hb : (o == p.1) = false := by simp [h]
      rw [hb]
      simp only [Bool.false_eq_true, if_false, ih, List.mem_cons]
      constructor
      · intro hall q hq
        rcases hq with hq | hq
        · rw [hq]
          exact fun e => h e.symm
        · exact hall q hq
      · intro hall q hq
        exact hall q (Or.inr hq)

theorem lookup_eraseP_ne {α : Type} (l : List (String × α)) (o k : String)
    (hne : k ≠ o) :
    (l.eraseP (fun p => p.1 == o)).lookup k = l.lookup k := by
  induction l with
  | nil => rfl
  | cons p rest ih =>
    by_cases hp : (p.1 == o) = true
    · rw [List.eraseP_cons, hp, cond_true, lookup_cons_eq]
      have hke : (k == p.1) = false := by
        have hp2 : p.1 = o := by simpa using hp
        simp [hp2, hne]
      rw [hke]
      simp
    · have hp2 : (p.1 == o) = false := by simpa using hp
      rw [List.eraseP_cons, hp2, cond_false, lookup_cons_eq,
        lookup_cons_eq, ih]

theorem keys_nodup_eraseP {α : Type} {l : List (String × α)}
    (hnd : (l.map Prod.fst).Nodup) (pred : String × α → Bool) :
    ((l.eraseP pred).map Prod.fst).Nodup :=
  hnd.sublist ((List.eraseP_sublist l).map Prod.fst)

theorem filter_eraseP {α : Type} (r : List (String × α))
    (hnd : (r.map Prod.fst).Nodup) (o : String) (os : List String) :
    (r.eraseP (fun p => p.1 == o)).filter (fun p => !(os.contains p.1)) =
      r.filter (fun p => !((o :: os).contains p.1)) := by
  induction r with
  | nil => rfl
  | cons q rest ih =>
    simp only [List.map_cons, List.nodup_cons] at hnd
    obtain ⟨hq, hnd2⟩ := hnd
    by_cases hqo : (q.1 == o) = true
    · rw [List.eraseP_cons, hqo, cond_true]
      have hqo2 : q.1 = o := by simpa using hqo
      have hfilters : rest.filter (fun p => !(os.contains p.1)) =
          rest.filter (fun p => !((o :: os).contains p.1)) := by
        apply List.filter_congr
        intro p hp
        have hpo : (p.1 == o) = false := by
          simp only [beq_eq_false_iff_ne, ne_eq]
          intro e
          exact hq (by rw [hqo2, ← e]; exact List.mem_map_of_mem Prod.fst hp)
        simp [List.contains_cons, hpo]
        exact fun _ => by simpa using hpo
      rw [hfilters, List.filter_cons]
      have hdrop : (!((o :: os).contains q.1)) = false := by
        simp [List.contains_cons, hqo2]
      rw [hdrop]
      simp
    · have hqo2 : (q.1 == o) = false := by simpa using hqo
      rw [List.eraseP_cons, hqo2, cond_false]
      rw [List.filter_cons, List.filter_cons]
      have hsame : (!((o :: os).contains q.1)) = (!(os.contains q.1)) := by
        simp [List.contains_cons, hqo2]
        exact fun _ => by simpa using hqo2
      rw [hsame, ih hnd2]

theorem gssGo_spec {α : Type} (order : List String) :
    order.Nodup → ∀ (sorted remaining : List (String × α)),
      (remaining.map Prod.fst).Nodup →
      gssGo order sorted remaining =
        sorted ++
          (order.filterMap fun n => (remaining.lookup n).map fun d => (n, d)) ++
          remaining.filter (fun p => !(order.contains p.1)) := by
  induction order with
  | nil =>
    intro _ sorted remaining _
    simp [gssGo]
  | cons o os ih =>
    intro hord sorted remaining hnd
    obtain ⟨ho, hos⟩ := List.nodup_cons.mp hord
    cases hro : remaining.lookup o with
    | none =>
      simp only [gssGo, hro]
      rw [ih hos sorted remaining hnd]
      have hkeys := (lookup_none_iff remaining o).mp hro
      have hfilters : remaining.filter (fun p => !(os.contains p.1)) =
          remaining.filter (fun p => !((o :: os).contains p.1)) := by
        apply List.filter_congr
        intro p hp
        have hpo : (p.1 == o) = false := by
          simp only [beq_eq_false_iff_ne, ne_eq]
          exact hkeys p hp
        simp [List.contains_cons, hpo]
        exact fun _ => by simpa using hpo
      rw [hfilters]
      simp [List.filterMap_cons, hro]
    | some d =>
      simp only [gssGo, hro]
      have hnd2 := keys_nodup_eraseP hnd (fun p => p.1 == o)
      rw [ih hos (sorted ++ [(o, d)]) _ hnd2]
      have hfm : (os.filterMap fun n =>
            ((remaining.eraseP (fun p => p.1 == o)).lookup n).map fun d => (n, d)) =
          (os.filterMap fun n => (remaining.lookup n).map fun d => (n, d)) := by
        apply List.filterMap_congr
        intro n hn
        have hne : n ≠ o := fun e => ho (e ▸ hn)
        rw [lookup_eraseP_ne _ _ _ hne]
      rw [hfm, filter_eraseP remaining hnd o os]
      simp [List.filterMap_cons, hro, List.append_assoc]

theorem filterMap_lookup_keys {α : Type} (order : List String)
    (l : List (String × α)) :
    (order.filterMap fun n => (l.lookup n).map fun d => (n, d)).map Prod.fst =
      order.filter (fun n => (l.map Prod.fst).contains n) := by
  induction order with
  | nil => rfl
  | cons o os ih =>
    rw [List.filterMap_cons, List.filter_cons]
    cases ho : l.lookup o with
    | none =>
      have hc : ((l.map Prod.fst).contains o) = false := by
        have hkeys := (lookup_none_iff l o).mp ho
        rw [Bool.eq_false_iff]
        intro hcon
        obtain ⟨p, hp, he⟩ := List.mem_map.mp (List.elem_iff.mp hcon)
        exact hkeys p hp he
      rw [hc]
      simpa using ih
    | some d =>
      have hc : ((l.map Prod.fst).contains o) = true := by
        have : ∃ p ∈ l, p.1 = o := by
          by_contra hno
          push_neg at hno
          rw [(lookup_none_iff l o).mpr hno] at ho
          cases ho
        obtain ⟨p, hp, he⟩ := this
        exact List.elem_iff.mpr (List.mem_map.mpr ⟨p, hp, he⟩)
      rw [hc]
      simpa using ih

/-! ## Claim C4 -/

/-- C4: `get_sorted_sections` returns the two-tier order — canonical names
present in the input first, in the canonicalization table's stably-deduplicated
declaration order, then all remaining sections in insertion order; when all
present sections are in the table, the output key order is the table order
filtered by key membership, hence independent of the input's insertion
order. -/
theorem claim_C4 (sections : List (String × SectionData))
    (hnd : (sections.map Prod.fst).Nodup) :
    get_sorted_sections sections =
      (section_order.filterMap fun n => (sections.lookup n).map fun d => (n, d)) ++
        sections.filter (fun p => !(section_order.contains p.1)) ∧
    ((∀ p ∈ sections, section_order.contains p.1 = true) →
      (get_sorted_sections sections).map Prod.fst =
        section_order.filter (fun n => (sections.map Prod.fst).contains n)) := by
  have hord : section_order.Nodup := by decide
  have h1 := gssGo_spec section_order hord [] sections hnd
  rw [List.nil_append] at h1
  constructor
  · exact h1
  · intro hall
    have hB : sections.filter (fun p => !(section_order.contains p.1)) = [] := by
      rw [List.filter_eq_nil_iff]
      intro p hp
      simp [hall p hp]
      exact List.elem_iff.mp (hall p hp)
    unfold get_sorted_sections
    rw [h1, hB, List.append_nil]
    exact filterMap_lookup_keys section_order sections

/-- C4 at a concrete pair of known sections listed against table order: the
output order is the table's. -/
theorem claim_C4_witness :
    (get_sorted_sections c4sections).map Prod.fst =
      section_order.filter (fun n => (c4sections.map Prod.fst).contains n) :=
  (claim_C4 c4sections (by decide)).2 (by decide)

/-! ## Cell-tracking machinery (claim C6) -/

theorem lookup_append {α : Type} (l1 l2 : List (String × α)) (a : String) :
    (l1 ++ l2).lookup a =
      match l1.lookup a with
      | some v => some v
      | none => l2.lookup a := by
  induction l1 with
  | nil => rfl
  | cons p rest ih =>
    rw [List.cons_append, lookup_cons_eq, lookup_cons_eq]
    by_cases h : (a == p.1) = true
    · rw [h]
      simp
    · have h2 : (a == p.1) = false := by simpa using h
      rw [h2]
      simp only [Bool.false_eq_true, if_false, ih]

theorem any_key_iff {α : Type} (l : List (String × α)) (k : String) :
    l.any (fun p => p.1 == k) = true ↔ ∃ p ∈ l, p.1 = k := by
  rw [List.any_eq_true]
  constructor
  · rintro ⟨p, hp, he⟩
    exact ⟨p, hp, by simpa using he⟩
  · rintro ⟨p, hp, he⟩
    exact ⟨p, hp, by simpa using he⟩

theorem lookup_mapUpd {α : Type} (l : List (String × α)) (k : String)
    (f : α → α) (k' : String) :
    (l.map (fun p => if p.1 == k then (k, f p.2) else p)).lookup k' =
      if k' = k then (l.lookup k).map f else l.lookup k' := by
  induction l with
  | nil => simp
  | cons p rest ih =>
    obtain ⟨pk, pv⟩ := p
    rw [List.map_cons]
    dsimp only
    by_cases hp : pk = k
    · subst hp
      rw [beq_self_eq_true]
      simp only [if_true]
      rw [lookup_cons_eq, lookup_cons_eq]
      dsimp only
      by_cases hk : k' = pk
      · subst hk
        rw [beq_self_eq_true]
        simp [ih]
      · have hb : (k' == pk) = false := by simpa using hk
        rw [hb]
        simp only [Bool.false_eq_true, if_false, ih, if_neg hk]
        rw [lookup_cons_eq]
        dsimp only
        rw [hb]
        simp
    · have hpb : (pk == k) = false := by simpa using hp
      rw [hpb]
      simp only [Bool.false_eq_true, if_false]
      rw [lookup_cons_eq, lookup_cons_eq]
      dsimp only
      by_cases hk : k' = pk
      · subst hk
        rw [beq_self_eq_true]
        simp only [if_true, if_neg hp]
        rw [lookup_cons_eq]
        dsimp only
        rw [beq_self_eq_true]
        simp
      · have hb : (k' == pk) = false := by simpa using hk
        rw [hb]
        simp only [Bool.false_eq_true, if_false, ih]
        by_cases hkk : k' = k
        · rw [if_pos hkk, if_pos hkk]
          have hkp : (k == pk) = false := by
            rw [beq_eq_false_iff_ne]
            exact fun e => hp e.symm
          rw [hkp]
          simp
        · rw [if_neg hkk, if_neg hkk, lookup_cons_eq]
          dsimp only
          rw [hb]
          simp

theorem lookup_updAssoc {α : Type} (l : List (String × α)) (k : String) (d : α)
    (f : α → α) (k' : String) :
    (updAssoc l k d f).lookup k' =
      if k' = k then some (f ((l.lookup k).getD d)) else l.lookup k' := by
  unfold updAssoc
  by_cases hany : l.any (fun p => p.1 == k) = true
  · rw [if_pos hany, lookup_mapUpd]
    by_cases hk : k' = k
    · rw [if_pos hk, if_pos hk]
      obtain ⟨p, hp, he⟩ := (any_key_iff l k).mp hany
      have : l.lookup k ≠ none := by
        rw [Ne, lookup_none_iff]
        push_neg
        exact ⟨p, hp, he⟩
      cases hl : l.lookup k with
      | none => exact absurd hl this
      | some v => simp
    · rw [if_neg hk, if_neg hk]
  · rw [if_neg hany, lookup_append]
    have hnone : l.lookup k = none := by
      rw [lookup_none_iff]
      intro p hp he
      exact hany ((any_key_iff l k).mpr ⟨p, hp, he⟩)
    by_cases hk : k' = k
    · rw [if_pos hk, hk, hnone]
      simp [lookup_cons_eq]
    · rw [if_neg hk]
      cases hl : l.lookup k' with
      | some v => simp
      | none =>
        simp only
        rw [lookup_cons_eq]
        have : (k' == k) = false := by simpa using hk
        rw [this]
        simp

theorem cellOf_modifySection (st : Model) (K S : String)
    (f : SectionData → SectionData) (kn sn : String) :
    cellOf (modifySection st K S f) kn sn =
      (if kn = K ∧ sn = S then some (f ((cellOf st K S).getD emptySection))
       else cellOf st kn sn) := by
  unfold cellOf modifySection
  rw [lookup_updAssoc]
  by_cases hk : kn = K
  · rw [if_pos hk]
    simp only [Option.some_bind]
    rw [lookup_updAssoc]
    by_cases hs : sn = S
    · rw [if_pos hs, if_pos ⟨hk, hs⟩]
      congr 2
      cases hst : st.lookup K
      · simp
      · simp
    · rw [if_neg hs, if_neg (fun hcon => hs hcon.2), hk]
      cases hst : st.lookup K
      · simp
      · simp
  · rw [if_neg hk, if_neg (fun hcon => hk hcon.1)]

theorem cellMetrics_of_cellOf (st : Model) (kn sn : String) :
    cellMetrics st kn sn = ((cellOf st kn sn).getD emptySection).metrics := by
  unfold cellMetrics
  cases h : cellOf st kn sn
  · rfl
  · rfl

theorem cellRules_of_cellOf (st : Model) (kn sn : String) :
    cellRules st kn sn = ((cellOf st kn sn).getD emptySection).rules := by
  unfold cellRules
  cases h : cellOf st kn sn
  · rfl
  · rfl

theorem cellMetrics_upsertMetric (st : Model) (K S : String) (mt : Metric)
    (kn sn : String) :
    cellMetrics (upsertMetric st K S mt) kn sn =
      (if kn = K ∧ sn = S then upsert (cellMetrics st kn sn) mt.name mt
       else cellMetrics st kn sn) := by
  rw [cellMetrics_of_cellOf, cellMetrics_of_cellOf]
  unfold upsertMetric
  rw [cellOf_modifySection]
  by_cases h : kn = K ∧ sn = S
  · rw [if_pos h, if_pos h]
    obtain ⟨h1, h2⟩ := h
    rw [h1, h2]
    simp
  · rw [if_neg h, if_neg h]

theorem cellRules_upsertMetric (st : Model) (K S : String) (mt : Metric)
    (kn sn : String) :
    cellRules (upsertMetric st K S mt) kn sn = cellRules st kn sn := by
  rw [cellRules_of_cellOf, cellRules_of_cellOf]
  unfold upsertMetric
  rw [cellOf_modifySection]
  by_cases h : kn = K ∧ sn = S
  · rw [if_pos h]
    obtain ⟨h1, h2⟩ := h
    rw [h1, h2]
    simp
  · rw [if_neg h]

theorem cellRules_appendRule (st : Model) (K S : String) (rl : Rule)
    (kn sn : String) :
    cellRules (appendRule st K S rl) kn sn =
      (if kn = K ∧ sn = S then cellRules st kn sn ++ [rl]
       else cellRules st kn sn) := by
  rw [cellRules_of_cellOf, cellRules_of_cellOf]
  unfold appendRule
  rw [cellOf_modifySection]
  by_cases h : kn = K ∧ sn = S
  · rw [if_pos h, if_pos h]
    obtain ⟨h1, h2⟩ := h
    rw [h1, h2]
    simp
  · rw [if_neg h, if_neg h]

theorem cellMetrics_appendRule (st : Model) (K S : String) (rl : Rule)
    (kn sn : String) :
    cellMetrics (appendRule st K S rl) kn sn = cellMetrics st kn sn := by
  rw [cellMetrics_of_cellOf, cellMetrics_of_cellOf]
  unfold appendRule
  rw [cellOf_modifySection]
  by_cases h : kn = K ∧ sn = S
  · rw [if_pos h]
    obtain ⟨h1, h2⟩ := h
    rw [h1, h2]
    simp
  · rw [if_neg h]

/-- The per-cell effect of one successfully processed row: the addressed
cell's metric dict is upserted and its rule list appended exactly per the
row's contributions; every other cell is untouched. -/
theorem processRow_cells {st : Model} {r : Row} {st2 : Model}
    (h : processRow st r = Except.ok st2) (kn sn : String) :
    cellMetrics st2 kn sn =
      (match rowMetricFor r kn sn with
       | some mt => upsert (cellMetrics st kn sn) mt.name mt
       | none => cellMetrics st kn sn) ∧
    cellRules st2 kn sn =
      cellRules st kn sn ++
        (match rowRuleFor r kn sn with
         | some rl => [rl]
         | none => []) := by
  obtain ⟨fkn, raw, hK, hS, hcase⟩ := processRow_ok_cases h
  have hrk : rowKernel r = extract_kernel_name fkn := by
    unfold rowKernel
    rw [getField_ok hK]
    rfl
  have hrs : rowSection r = sectionCanon raw := by
    unfold rowSection
    rw [getField_ok hS]
    rfl
  rcases hcase with ⟨hsec, hst⟩ | ⟨hsec, k1, hm, hr⟩
  · have hmf : rowMetricFor r kn sn = none := by
      unfold rowMetricFor
      rw [if_neg]
      intro hcond
      exact hcond.1 (by rw [hrs, hsec])
    have hrf : rowRuleFor r kn sn = none := by
      unfold rowRuleFor
      rw [if_neg]
      intro hcond
      exact hcond.1 (by rw [hrs, hsec])
    rw [hst, hmf, hrf]
    simp
  · have hM : cellMetrics k1 kn sn =
        (match rowMetricFor r kn sn with
         | some mt => upsert (cellMetrics st kn sn) mt.name mt
         | none => cellMetrics st kn sn) ∧
        cellRules k1 kn sn = cellRules st kn sn := by
      rcases metricStep_ok hm with ⟨mn, hmn, hstrip, hk1⟩ |
        ⟨mn, u, v, hmn, hu, hv, hstrip, hk1⟩
      · have hmf : rowMetricFor r kn sn = none := by
          unfold rowMetricFor
          rw [if_neg]
          intro hcond
          apply hcond.2.2.2
          rw [getField_ok hmn]
          exact hstrip
        rw [hk1, hmf]
        exact ⟨rfl, rfl⟩
      · have hmf : rowMetricFor r kn sn =
            (if extract_kernel_name fkn = kn ∧ sectionCanon raw = sn then
              some ⟨pyStrip mn, pyStrip u, format_numeric_value (pyStrip v)⟩
             else none) := by
          unfold rowMetricFor
          rw [getField_ok hmn, getField_ok hu, getField_ok hv]
          by_cases hc : extract_kernel_name fkn = kn ∧ sectionCanon raw = sn
          · rw [if_pos hc]
            rw [if_pos ⟨by rw [hrs]; exact hsec, by rw [hrk]; exact hc.1,
              by rw [hrs]; exact hc.2, hstrip⟩]
            rfl
          · rw [if_neg hc, if_neg]
            intro hcond
            exact hc ⟨by rw [← hrk]; exact hcond.2.1, by rw [← hrs]; exact hcond.2.2.1⟩
        constructor
        · rw [hk1, hmf, cellMetrics_upsertMetric]
          by_cases hc : extract_kernel_name fkn = kn ∧ sectionCanon raw = sn
          · rw [if_pos hc, if_pos ⟨hc.1.symm, hc.2.symm⟩]
          · rw [if_neg hc, if_neg]
            intro hcon
            exact hc ⟨hcon.1.symm, hcon.2.symm⟩
        · rw [hk1, cellRules_upsertMetric]
    obtain ⟨hM1, hM2⟩ := hM
    rcases ruleStep_ok hr with ⟨rn, hrn, hstrip, hst2⟩ |
      ⟨rn, t, d, sty, sp, hrn, ht, hd, hsty, hsp, hstrip, hst2⟩
    · have hrf : rowRuleFor r kn sn = none := by
        unfold rowRuleFor
        rw [if_neg]
        intro hcond
        apply hcond.2.2.2
        rw [getField_ok hrn]
        exact hstrip
      rw [hst2, hrf]
      exact ⟨hM1, by rw [hM2]; simp⟩
    · have hrf : rowRuleFor r kn sn =
          (if extract_kernel_name fkn = kn ∧ sectionCanon raw = sn then
            some ⟨pyStrip rn, pyStrip t, pyStrip d, pyStrip sty, pyStrip sp⟩
           else none) := by
        unfold rowRuleFor
        rw [getField_ok hrn, getField_ok ht, getField_ok hd, getField_ok hsty,
          getField_ok hsp]
        by_cases hc : extract_kernel_name fkn = kn ∧ sectionCanon raw = sn
        · rw [if_pos hc]
          rw [if_pos ⟨by rw [hrs]; exact hsec, by rw [hrk]; exact hc.1,
            by rw [hrs]; exact hc.2, hstrip⟩]
          rfl
        · rw [if_neg hc, if_neg]
          intro hcond
          exact hc ⟨by rw [← hrk]; exact hcond.2.1, by rw [← hrs]; exact hcond.2.2.1⟩
      constructor
      · rw [hst2, cellMetrics_appendRule, hM1]
      · rw [hst2, cellRules_appendRule, hrf, hM2]
        by_cases hc : extract_kernel_name fkn = kn ∧ sectionCanon raw = sn
        · rw [if_pos hc, if_pos ⟨hc.1.symm, hc.2.symm⟩]
        · rw [if_neg hc, if_neg]
          · simp
          · intro hcon
            exact hc ⟨hcon.1.symm, hcon.2.symm⟩

/-- Relating the whole aggregation run to the per-cell contribution lists. -/
theorem parseRows_cells (rows : List Row) :
    ∀ st m, parseRows st rows = Except.ok m → ∀ kn sn,
      cellMetrics m kn sn =
        buildDictFrom (cellMetrics st kn sn) (metricContribs rows kn sn) ∧
      cellRules m kn sn = cellRules st kn sn ++ ruleContribs rows kn sn := by
  induction rows with
  | nil =>
    intro st m h kn sn
    injection h with h
    rw [← h]
    simp [metricContribs, ruleContribs, buildDictFrom]
  | cons r rs ih =>
    intro st m h kn sn
    unfold parseRows at h
    cases hp : processRow st r with
    | error e =>
      simp only [hp] at h
      cases h
    | ok st2 =>
      simp only [hp] at h
      obtain ⟨ihm, ihr⟩ := ih st2 m h kn sn
      obtain ⟨hcm, hcr⟩ := processRow_cells hp kn sn
      constructor
      · rw [ihm, hcm]
        unfold metricContribs
        rw [List.filterMap_cons]
        cases hmf : rowMetricFor r kn sn with
        | none => simp
        | some mt => simp [buildDictFrom]
      · rw [ihr, hcr]
        unfold ruleContribs
        rw [List.filterMap_cons]
        cases hrf : rowRuleFor r kn sn with
        | none => simp
        | some rl => simp

theorem any_eq_keys_contains {α : Type} (l : List (String × α)) (k : String) :
    l.any (fun p => p.1 == k) = (l.map Prod.fst).contains k := by
  induction l with
  | nil => rfl
  | cons p rest ih =>
    rw [List.any_cons, List.map_cons, List.contains_cons, ih]
    have : (p.1 == k) = (k == p.1) := by
      by_cases h : p.1 = k
      · simp [h]
      · have h1 : (p.1 == k) = false := by simpa using h
        have h2 : (k == p.1) = false := by
          rw [beq_eq_false_iff_ne]
          exact fun e => h e.symm
        rw [h1, h2]
    rw [this]

theorem keys_mapUpd {α : Type} (l : List (String × α)) (k : String)
    (f : α → α) :
    (l.map (fun p => if p.1 == k then (k, f p.2) else p)).map Prod.fst =
      l.map Prod.fst := by
  induction l with
  | nil => rfl
  | cons p rest ih =>
    rw [List.map_cons, List.map_cons, List.map_cons]
    by_cases hp : (p.1 == k) = true
    · rw [hp]
      simp only [if_true]
      rw [ih]
      have : k = p.1 := by
        have := hp
        simp only [beq_iff_eq] at this
        exact this.symm
      rw [← this]
    · have hp2 : (p.1 == k) = false := by simpa using hp
      rw [hp2]
      simp only [Bool.false_eq_true, if_false, ih]

theorem keys_updAssoc {α : Type} (l : List (String × α)) (k : String) (d : α)
    (f : α → α) :
    (updAssoc l k d f).map Prod.fst =
      (if (l.map Prod.fst).contains k then l.map Prod.fst
       else l.map Prod.fst ++ [k]) := by
  unfold updAssoc
  rw [← any_eq_keys_contains]
  by_cases hany : l.any (fun p => p.1 == k) = true
  · rw [if_pos hany, if_pos hany, keys_mapUpd]
  · have h2 : l.any (fun p => p.1 == k) = false := by
      rwa [Bool.not_eq_true] at hany
    rw [h2]
    simp

theorem keys_buildDictFrom (l : List Metric) :
    ∀ init : List (String × Metric),
      (buildDictFrom init l).map Prod.fst =
        (l.map Metric.name).foldl
          (fun acc v => if acc.contains v then acc else acc ++ [v])
          (init.map Prod.fst) := by
  induction l with
  | nil =>
    intro init
    simp [buildDictFrom]
  | cons mt rest ih =>
    intro init
    show (buildDictFrom (upsert init mt.name mt) rest).map Prod.fst = _
    rw [ih (upsert init mt.name mt)]
    rw [List.map_cons, List.foldl_cons]
    unfold upsert
    rw [keys_updAssoc]

theorem keys_buildDict (l : List Metric) :
    (buildDict l).map Prod.fst = dedupFirst (l.map Metric.name) := by
  unfold buildDict dedupFirst
  rw [keys_buildDictFrom]
  rfl

theorem foldl_dedup_nodup (l : List String) :
    ∀ acc : List String, acc.Nodup →
      (l.foldl (fun acc v => if acc.contains v then acc else acc ++ [v])
        acc).Nodup := by
  induction l with
  | nil =>
    intro acc hacc
    simpa using hacc
  | cons v rest ih =>
    intro acc hacc
    rw [List.foldl_cons]
    by_cases hc : acc.contains v = true
    · rw [if_pos hc]
      exact ih acc hacc
    · rw [if_neg hc]
      apply ih
      have hv : v ∉ acc := fun hm => hc (List.elem_iff.mpr hm)
      rw [List.nodup_append]
      refine ⟨hacc, List.nodup_singleton v, ?_⟩
      simp only [List.disjoint_singleton]
      exact hv

theorem nodup_dedupFirst (l : List String) : (dedupFirst l).Nodup :=
  foldl_dedup_nodup l [] (by simp)

theorem lookup_upsert (m : List (String × Metric)) (k : String) (v : Metric)
    (k' : String) :
    (upsert m k v).lookup k' = if k' = k then some v else m.lookup k' := by
  unfold upsert
  rw [lookup_updAssoc]

theorem lookup_buildDictFrom (l : List Metric) :
    ∀ (init : List (String × Metric)) (n : String),
      (buildDictFrom init l).lookup n =
        (match (l.filter (fun mt => mt.name == n)).getLast? with
         | some mt => some mt
         | none => init.lookup n) := by
  induction l with
  | nil =>
    intro init n
    simp [buildDictFrom]
  | cons mt rest ih =>
    intro init n
    show (buildDictFrom (upsert init mt.name mt) rest).lookup n = _
    rw [ih (upsert init mt.name mt) n]
    by_cases hname : mt.name = n
    · have hfb : (mt.name == n) = true := by simpa using hname
      rw [List.filter_cons, hfb]
      simp only [if_true]
      cases hfr : rest.filter (fun x => x.name == n) with
      | nil =>
        rw [lookup_upsert, if_pos hname.symm]
        rfl
      | cons a as =>
        cases hg : (a :: as).getLast? with
        | none =>
          rw [List.getLast?_cons] at hg
          cases hg
        | some x => rw [List.getLast?_cons_cons, hg]
    · have hfb : (mt.name == n) = false := by simpa using hname
      rw [List.filter_cons, hfb]
      simp only [Bool.false_eq_true, if_false]
      cases hfr : rest.filter (fun x => x.name == n) with
      | nil =>
        rw [lookup_upsert, if_neg (fun e => hname e.symm)]
      | cons a as => rfl

theorem lookup_buildDict (l : List Metric) (n : String) :
    (buildDict l).lookup n = lastWithName l n := by
  unfold buildDict lastWithName
  rw [lookup_buildDictFrom]
  cases h : (l.filter (fun mt => mt.name == n)).getLast? with
  | none => rfl
  | some mt => rfl

/-! ## Claim C6 -/

/-- C6: for every `(kernel, section)` cell of a parsed model, the metric dict
is exactly the fold of the cell's row contributions — metric names unique,
key positions in first-seen order (stable dedup of the contribution names),
the stored metric is the one from the last contributing row — and the rule
list is exactly the rule contributions in input-row order, duplicates kept. -/
theorem claim_C6 (rows : List Row) (m : Model) (kn sn n : String)
    (h : parse_ncu_csv_data rows = Except.ok m) :
    cellMetrics m kn sn = buildDict (metricContribs rows kn sn) ∧
    ((cellMetrics m kn sn).map Prod.fst).Nodup ∧
    (cellMetrics m kn sn).map Prod.fst =
      dedupFirst ((metricContribs rows kn sn).map Metric.name) ∧
    (cellMetrics m kn sn).lookup n = lastWithName (metricContribs rows kn sn) n ∧
    cellRules m kn sn = ruleContribs rows kn sn := by
  obtain ⟨hm, hr⟩ := parseRows_cells rows [] m h kn sn
  have hm2 : cellMetrics m kn sn = buildDict (metricContribs rows kn sn) := hm
  have hr2 : cellRules m kn sn = ruleContribs rows kn sn := hr
  refine ⟨hm2, ?_, ?_, ?_, hr2⟩
  · rw [hm2, keys_buildDict]
    exact nodup_dedupFirst _
  · rw [hm2, keys_buildDict]
  · rw [hm2, lookup_buildDict]

/-- C6 at a concrete input with a duplicated metric name and two rules. -/
theorem claim_C6_witness :
    cellMetrics c6model "K" "Occupancy" =
      buildDict (metricContribs c6rows "K" "Occupancy") ∧
    ((cellMetrics c6model "K" "Occupancy").map Prod.fst).Nodup ∧
    (cellMetrics c6model "K" "Occupancy").map Prod.fst =
      dedupFirst ((metricContribs c6rows "K" "Occupancy").map Metric.name) ∧
    (cellMetrics c6model "K" "Occupancy").lookup "x" =
      lastWithName (metricContribs c6rows "K" "Occupancy") "x" ∧
    cellRules c6model "K" "Occupancy" = ruleContribs c6rows "K" "Occupancy" :=
  claim_C6 c6rows c6model "K" "Occupancy" "x" (by decide)

/-- C3 at a concrete non-integral large value. -/
theorem claim_C3_witness :
    hasComma ("12,345.6") = true ∧
    format_numeric_value ("12,345.6") = "12,345.60" := by
  refine ⟨by decide, ?_⟩
  have h := (claim_C3 ("12,345.6") (by decide)).2.2 (mkRat 61728 5) (by decide)
  have habs : (1000 : ℚ) ≤ |mkRat 61728 5| := by
    rw [abs_of_nonneg (by decide : (0 : ℚ) ≤ mkRat 61728 5)]
    decide
  rw [h.2.1 (by decide) habs]
  decide

end Ncu2Markdown
